import Mathlib

/-!
Verification development for the ColourCam_AS7343 repository.

The repository is Python; we use a shallow embedding:

* Python strings are modelled as lists of Unicode code points (`PyStr`),
  with `chr`/`ord` the identity on code points; `str.upper`/`str.lower`
  are modelled on the ASCII range (faithful for every code point the
  programs actually produce in the ranges we quantify over).
* Python floats are idealized as exact rational arithmetic (`ℚ`);
  `round(x, 2)` is modelled by `round2` (round-half-up on exact
  rationals; Python uses round-half-even on binary floats, a difference
  that is immaterial to every statement proved here, none of which sits
  on an exact half-cent tie).
* `math.log10` / `10 ** x` are modelled over `ℝ` by `Real.logb 10` and
  real exponentiation.
* Python dicts keyed by well-name strings are modelled as association
  lists in insertion order, or (where only the mapping matters and the
  key set is fixed) as functions into `Option`.
* Fallible operations return `Option`; a `while True:` read loop that
  can exhaust all responses that will ever arrive without seeing an
  acknowledgment is modelled by a distinguished non-termination outcome.
-/

/-! ## Python strings as code-point lists -/

/-- A Python string, modelled as the list of its Unicode code points. -/
abbrev PyStr := List ℕ

/-- Model of `str.upper` on one character, ASCII range
(`'a'..'z'` map down by 32, everything else is unchanged).
Faithful to Python for all code points below 181, which covers every
character produced by `chr(ord('A') + r)` for the row counts we quantify
over. -/
def pyUpperChar (c : ℕ) : ℕ := if 97 ≤ c ∧ c ≤ 122 then c - 32 else c

/-- Model of `str.lower` on one character (ASCII range). -/
def pyLowerChar (c : ℕ) : ℕ := if 65 ≤ c ∧ c ≤ 90 then c + 32 else c

/-- Model of `str.lower` on a whole string. -/
def pyLower (s : PyStr) : PyStr := s.map pyLowerChar

/-- Base-10 digits of `n`, least significant first, computed with
structural fuel so that it reduces by evaluation.  Agrees with
`Nat.digits 10` (proved below). -/
def digitsRevAux : ℕ → ℕ → List ℕ
  | 0, _ => []
  | _ + 1, 0 => []
  | fuel + 1, n + 1 => ((n + 1) % 10) :: digitsRevAux fuel ((n + 1) / 10)

/-- Model of Python `str(c)` for a positive integer `c`: the decimal
digit characters of `c`, most significant first. -/
def pyStrOfNat (c : ℕ) : PyStr := ((digitsRevAux c c).reverse).map (· + 48)

/-- Model of Python `int(s)` on a string of decimal digit characters. -/
def pyIntOfStr (s : PyStr) : ℕ := s.foldl (fun a d => a * 10 + (d - 48)) 0

/-- Model of the f-string `f"{row_letter}{c}"` where
`row_letter = chr(ord('A') + r)`: the code point `65 + r` followed by the
decimal digits of the 1-based column number `c`. -/
def wellName (r c : ℕ) : PyStr := (65 + r) :: pyStrOfNat c

/-- Model of the inner helper `row_to_index` of `calculate_well_positions`
(both copies): `ord(row_letter.upper()) - ord('A')` as a Python `int`. -/
def rowToIndex (c : ℕ) : ℤ := (pyUpperChar c : ℤ) - 65

/-! ### Digit round-trip lemmas -/

theorem digitsRevAux_eq_digits : ∀ fuel n, n ≤ fuel → digitsRevAux fuel n = Nat.digits 10 n := by
  intro fuel
  induction fuel with
  | zero =>
    intro n hn
    interval_cases n
    simp [digitsRevAux]
  | succ fuel ih =>
    intro n hn
    match n with
    | 0 => simp [digitsRevAux]
    | n + 1 =>
      rw [digitsRevAux, Nat.digits_def' (by norm_num : (1:ℕ) < 10) (Nat.succ_pos n)]
      congr 1
      have h1 : (n + 1) / 10 ≤ n := Nat.lt_succ_iff.mp (Nat.div_lt_self (Nat.succ_pos n) (by norm_num))
      exact ih _ (le_trans h1 (by omega))

theorem foldl_digits_reversed (ds : List ℕ) :
    ∀ a : ℕ, ((ds.reverse).map (· + 48)).foldl (fun a d => a * 10 + (d - 48)) a
      = a * 10 ^ ds.length + Nat.ofDigits 10 ds := by
  induction ds with
  | nil => intro a; simp
  | cons d ds ih =>
    intro a
    have : ((d :: ds).reverse).map (· + 48) = ((ds.reverse).map (· + 48)) ++ [d + 48] := by
      simp
    rw [this, List.foldl_append, ih]
    simp only [List.foldl, Nat.add_sub_cancel, Nat.ofDigits_cons, List.length_cons]
    ring

/-- `int(str(c)) = c`: the decimal representation round-trips through the
model of Python string/int conversion. -/
theorem pyIntOfStr_pyStrOfNat (c : ℕ) : pyIntOfStr (pyStrOfNat c) = c := by
  rw [pyStrOfNat, pyIntOfStr, digitsRevAux_eq_digits c c le_rfl, foldl_digits_reversed]
  simpa using Nat.ofDigits_digits 10 c

theorem pyStrOfNat_injective {c c' : ℕ} (h : pyStrOfNat c = pyStrOfNat c') : c = c' := by
  have := pyIntOfStr_pyStrOfNat c
  rw [h, pyIntOfStr_pyStrOfNat] at this
  omega

theorem wellName_inj {r c r' c' : ℕ} (h : wellName r c = wellName r' c') :
    r = r' ∧ c = c' := by
  rw [wellName, wellName] at h
  obtain ⟨h1, h2⟩ := List.cons_eq_cons.mp h
  exact ⟨by omega, pyStrOfNat_injective h2⟩

/-! ## Geometry: well positions and visit orders

Source: `auto_blank_capture.py` lines 166-232 (`calculate_well_positions`),
lines 501-506 (well order inside `capture_blanks_automated`);
`well_plate_location_gui.py` lines 163-212 (the second copy of
`calculate_well_positions`) and lines 214-228 (`generate_snake_path`). -/

/-- A 3-axis coordinate `{"X": float, "Y": float, "Z": float}`. -/
structure Pos where
  X : ℚ
  Y : ℚ
  Z : ℚ
deriving DecidableEq, Repr

/-- Model of Python `round(x, 2)` on idealized rationals. -/
def round2 (q : ℚ) : ℚ := ((round (q * 100) : ℤ) : ℚ) / 100

/-- A position with every axis rounded to 2 decimal places. -/
def round2Pos (p : Pos) : Pos := ⟨round2 p.X, round2 p.Y, round2 p.Z⟩

/-- The `wells` list built inside `calculate_well_positions`
(`auto_blank_capture.py` lines 189-193): row letters `chr(ord('A') + r)`
for `r in range(num_rows)`, columns `1..num_cols`, row-major. -/
def wellsList (num_rows num_cols : ℕ) : List PyStr :=
  (List.range num_rows).flatMap fun r =>
    (List.range num_cols).map fun c0 => wellName r (c0 + 1)

/-- Per-well body of `calculate_well_positions`
(`auto_blank_capture.py` lines 202-230): parse the row letter and column
number back out of the well name, normalize to `u`, `v`, interpolate the
top edge and the bottom edge at `u`, blend the two edge points at `v`,
and round each axis to 2 decimal places. -/
def wellPositionAt (top_left bottom_left top_right bottom_right : Pos)
    (num_rows num_cols : ℕ) (well : PyStr) : Pos :=
  let row_idx : ℤ := rowToIndex (well.headD 0)
  let col_idx : ℤ := (pyIntOfStr well.tail : ℤ) - 1
  let u : ℚ := if 1 < num_cols then (col_idx : ℚ) / ((num_cols : ℚ) - 1) else 0
  let v : ℚ := if 1 < num_rows then (row_idx : ℚ) / ((num_rows : ℚ) - 1) else 0
  let top_x := top_left.X + u * (top_right.X - top_left.X)
  let top_y := top_left.Y + u * (top_right.Y - top_left.Y)
  let top_z := top_left.Z + u * (top_right.Z - top_left.Z)
  let bottom_x := bottom_left.X + u * (bottom_right.X - bottom_left.X)
  let bottom_y := bottom_left.Y + u * (bottom_right.Y - bottom_left.Y)
  let bottom_z := bottom_left.Z + u * (bottom_right.Z - bottom_left.Z)
  ⟨round2 (top_x + v * (bottom_x - top_x)),
   round2 (top_y + v * (bottom_y - top_y)),
   round2 (top_z + v * (bottom_z - top_z))⟩

/-- `calculate_well_positions` from `auto_blank_capture.py` (lines
166-232): the returned dict, as an association list in insertion order. -/
def calculate_well_positions (top_left bottom_left top_right bottom_right : Pos)
    (num_rows num_cols : ℕ) : List (PyStr × Pos) :=
  (wellsList num_rows num_cols).map fun w =>
    (w, wellPositionAt top_left bottom_left top_right bottom_right num_rows num_cols w)

/-- The `wells` list of the GUI copy (`well_plate_location_gui.py` lines
173-177, textually the same construction). -/
def guiWellsList (num_rows num_cols : ℕ) : List PyStr :=
  (List.range num_rows).flatMap fun r =>
    (List.range num_cols).map fun c0 => wellName r (c0 + 1)

/-- Per-well body of the GUI copy of `calculate_well_positions`
(`well_plate_location_gui.py` lines 186-210, textually the same
computation). -/
def guiWellPositionAt (top_left bottom_left top_right bottom_right : Pos)
    (num_rows num_cols : ℕ) (well : PyStr) : Pos :=
  let row_idx : ℤ := rowToIndex (well.headD 0)
  let col_idx : ℤ := (pyIntOfStr well.tail : ℤ) - 1
  let u : ℚ := if 1 < num_cols then (col_idx : ℚ) / ((num_cols : ℚ) - 1) else 0
  let v : ℚ := if 1 < num_rows then (row_idx : ℚ) / ((num_rows : ℚ) - 1) else 0
  let top_x := top_left.X + u * (top_right.X - top_left.X)
  let top_y := top_left.Y + u * (top_right.Y - top_left.Y)
  let top_z := top_left.Z + u * (top_right.Z - top_left.Z)
  let bottom_x := bottom_left.X + u * (bottom_right.X - bottom_left.X)
  let bottom_y := bottom_left.Y + u * (bottom_right.Y - bottom_left.Y)
  let bottom_z := bottom_left.Z + u * (bottom_right.Z - bottom_left.Z)
  ⟨round2 (top_x + v * (bottom_x - top_x)),
   round2 (top_y + v * (bottom_y - top_y)),
   round2 (top_z + v * (bottom_z - top_z))⟩

/-- `calculate_well_positions` from `well_plate_location_gui.py` (lines
163-212), the second copy. -/
def guiCalculateWellPositions (top_left bottom_left top_right bottom_right : Pos)
    (num_rows num_cols : ℕ) : List (PyStr × Pos) :=
  (guiWellsList num_rows num_cols).map fun w =>
    (w, guiWellPositionAt top_left bottom_left top_right bottom_right num_rows num_cols w)

/-- The well visit order built inside `capture_blanks_automated`
(`auto_blank_capture.py` lines 501-506): plain row-major order
`A1, A2, ..., B1, B2, ...`. -/
def captureVisitOrder (num_rows num_cols : ℕ) : List PyStr :=
  (List.range num_rows).flatMap fun r =>
    (List.range num_cols).map fun c0 => wellName r (c0 + 1)

/-- `generate_snake_path` from `well_plate_location_gui.py` (lines
214-228): even row index appends columns `1..num_cols` ascending, odd row
index appends `range(num_cols, 0, -1)`, i.e. `num_cols - k` for
`k in range(num_cols)`. -/
def generate_snake_path (num_rows num_cols : ℕ) : List PyStr :=
  (List.range num_rows).flatMap fun r =>
    if r % 2 = 0 then
      (List.range num_cols).map fun c0 => wellName r (c0 + 1)
    else
      (List.range num_cols).map fun k => wellName r (num_cols - k)

/-- Python dict lookup `d[key]` on an association list (`none` models
`KeyError`). -/
def assocGet {α : Type} (k : PyStr) : List (PyStr × α) → Option α
  | [] => none
  | (k', v) :: t => if k = k' then some v else assocGet k t

/-- The interpolation formula exactly as the claim states it: with
0-based row index `r` and 1-based column number `c`,
`u = (c-1)/(cols-1)` (or 0 when `cols = 1`), `v = r/(rows-1)` (or 0 when
`rows = 1`), top edge `top_left→top_right` at `u`, bottom edge
`bottom_left→bottom_right` at `u`, the two edge points blended at `v`,
each axis rounded to 2 decimal places. -/
def specInterp (top_left bottom_left top_right bottom_right : Pos)
    (num_rows num_cols r c : ℕ) : Pos :=
  let u : ℚ := if 1 < num_cols then ((c : ℚ) - 1) / ((num_cols : ℚ) - 1) else 0
  let v : ℚ := if 1 < num_rows then (r : ℚ) / ((num_rows : ℚ) - 1) else 0
  let top_x := top_left.X + u * (top_right.X - top_left.X)
  let top_y := top_left.Y + u * (top_right.Y - top_left.Y)
  let top_z := top_left.Z + u * (top_right.Z - top_left.Z)
  let bottom_x := bottom_left.X + u * (bottom_right.X - bottom_left.X)
  let bottom_y := bottom_left.Y + u * (bottom_right.Y - bottom_left.Y)
  let bottom_z := bottom_left.Z + u * (bottom_right.Z - bottom_left.Z)
  ⟨round2 (top_x + v * (bottom_x - top_x)),
   round2 (top_y + v * (bottom_y - top_y)),
   round2 (top_z + v * (bottom_z - top_z))⟩

/-- A rational is an exact multiple of 1/100 (expressible with 2 decimal
places). -/
def TwoDec (q : ℚ) : Prop := ∃ n : ℤ, q * 100 = (n : ℚ)

/-! ### Geometry lemmas -/

theorem assocGet_map {α : Type} (f : PyStr → α) :
    ∀ (l : List PyStr) (k : PyStr), k ∈ l →
      assocGet k (l.map fun w => (w, f w)) = some (f k) := by
  intro l
  induction l with
  | nil => intro k hk; simp at hk
  | cons a t ih =>
    intro k hk
    simp only [List.map_cons, assocGet]
    by_cases h : k = a
    · subst h; simp
    · rw [if_neg h]
      exact ih k ((List.mem_cons.mp hk).resolve_left h)

theorem mem_wellsList {num_rows num_cols r c : ℕ}
    (hr : r < num_rows) (hc1 : 1 ≤ c) (hc2 : c ≤ num_cols) :
    wellName r c ∈ wellsList num_rows num_cols := by
  refine List.mem_flatMap.mpr ⟨r, List.mem_range.mpr hr, ?_⟩
  refine List.mem_map.mpr ⟨c - 1, List.mem_range.mpr (by omega), ?_⟩
  rw [Nat.sub_add_cancel hc1]

theorem wellPositionAt_wellName (tl bl tr br : Pos) (num_rows num_cols : ℕ)
    {r c : ℕ} (hr : r ≤ 31) (_hc : 1 ≤ c) :
    wellPositionAt tl bl tr br num_rows num_cols (wellName r c) =
      specInterp tl bl tr br num_rows num_cols r c := by
  have hrow : rowToIndex ((wellName r c).headD 0) = (r : ℤ) := by
    show rowToIndex (65 + r) = (r : ℤ)
    rw [rowToIndex, pyUpperChar, if_neg (by omega)]
    push_cast
    ring
  have hcol : (pyIntOfStr (wellName r c).tail : ℤ) = (c : ℤ) := by
    show (pyIntOfStr (pyStrOfNat c) : ℤ) = (c : ℤ)
    rw [pyIntOfStr_pyStrOfNat]
  simp only [wellPositionAt, specInterp, hrow, hcol]
  push_cast
  rfl

theorem round2_twoDec {q : ℚ} (h : TwoDec q) : round2 q = q := by
  obtain ⟨n, hn⟩ := h
  rw [round2, hn, round_intCast, div_eq_iff (by norm_num : (100:ℚ) ≠ 0)]
  exact hn.symm

theorem round2Pos_twoDec {p : Pos} (hx : TwoDec p.X) (hy : TwoDec p.Y) (hz : TwoDec p.Z) :
    round2Pos p = p := by
  cases p
  simp only [round2Pos, Pos.mk.injEq]
  exact ⟨round2_twoDec hx, round2_twoDec hy, round2_twoDec hz⟩

theorem specInterp_top_left (tl bl tr br : Pos) (num_rows num_cols : ℕ) :
    specInterp tl bl tr br num_rows num_cols 0 1 = round2Pos tl := by
  simp only [specInterp, round2Pos, Nat.cast_one, Nat.cast_zero, Pos.mk.injEq]
  have hu : (if 1 < num_cols then ((1:ℚ) - 1) / ((num_cols : ℚ) - 1) else 0) = 0 := by
    split <;> simp
  have hv : (if 1 < num_rows then ((0:ℚ)) / ((num_rows : ℚ) - 1) else 0) = 0 := by
    split <;> simp
  rw [hu, hv]
  refine ⟨?_, ?_, ?_⟩ <;> (congr 1; ring)

theorem specInterp_top_right (tl bl tr br : Pos) (num_rows num_cols : ℕ)
    (hc : 2 ≤ num_cols) :
    specInterp tl bl tr br num_rows num_cols 0 num_cols = round2Pos tr := by
  simp only [specInterp, round2Pos, Nat.cast_zero, Pos.mk.injEq]
  have hne : (num_cols : ℚ) - 1 ≠ 0 := by
    have : (2:ℚ) ≤ (num_cols : ℚ) := by exact_mod_cast hc
    linarith
  have hu : (if 1 < num_cols then ((num_cols:ℚ) - 1) / ((num_cols : ℚ) - 1) else 0) = 1 := by
    rw [if_pos (by omega), div_self hne]
  have hv : (if 1 < num_rows then ((0:ℚ)) / ((num_rows : ℚ) - 1) else 0) = 0 := by
    split <;> simp
  rw [hu, hv]
  refine ⟨?_, ?_, ?_⟩ <;> (congr 1; ring)

theorem specInterp_bottom_left (tl bl tr br : Pos) (num_rows num_cols : ℕ)
    (hr : 2 ≤ num_rows) :
    specInterp tl bl tr br num_rows num_cols (num_rows - 1) 1 = round2Pos bl := by
  simp only [specInterp, round2Pos, Nat.cast_one, Pos.mk.injEq]
  have hne : (num_rows : ℚ) - 1 ≠ 0 := by
    have : (2:ℚ) ≤ (num_rows : ℚ) := by exact_mod_cast hr
    linarith
  have hcast : ((num_rows - 1 : ℕ) : ℚ) = (num_rows : ℚ) - 1 := by
    have : (1:ℕ) ≤ num_rows := by omega
    push_cast [this]
    ring
  have hu : (if 1 < num_cols then ((1:ℚ) - 1) / ((num_cols : ℚ) - 1) else 0) = 0 := by
    split <;> simp
  have hv : (if 1 < num_rows then (((num_rows - 1 : ℕ) : ℚ)) / ((num_rows : ℚ) - 1) else 0) = 1 := by
    rw [if_pos (by omega), hcast, div_self hne]
  rw [hu, hv]
  refine ⟨?_, ?_, ?_⟩ <;> (congr 1; ring)

theorem specInterp_bottom_right (tl bl tr br : Pos) (num_rows num_cols : ℕ)
    (hr : 2 ≤ num_rows) (hc : 2 ≤ num_cols) :
    specInterp tl bl tr br num_rows num_cols (num_rows - 1) num_cols = round2Pos br := by
  simp only [specInterp, round2Pos, Pos.mk.injEq]
  have hner : (num_rows : ℚ) - 1 ≠ 0 := by
    have : (2:ℚ) ≤ (num_rows : ℚ) := by exact_mod_cast hr
    linarith
  have hnec : (num_cols : ℚ) - 1 ≠ 0 := by
    have : (2:ℚ) ≤ (num_cols : ℚ) := by exact_mod_cast hc
    linarith
  have hcast : ((num_rows - 1 : ℕ) : ℚ) = (num_rows : ℚ) - 1 := by
    have : (1:ℕ) ≤ num_rows := by omega
    push_cast [this]
    ring
  have hu : (if 1 < num_cols then ((num_cols:ℚ) - 1) / ((num_cols : ℚ) - 1) else 0) = 1 := by
    rw [if_pos (by omega), div_self hnec]
  have hv : (if 1 < num_rows then (((num_rows - 1 : ℕ) : ℚ)) / ((num_rows : ℚ) - 1) else 0) = 1 := by
    rw [if_pos (by omega), hcast, div_self hner]
  rw [hu, hv]
  refine ⟨?_, ?_, ?_⟩ <;> (congr 1; ring)

theorem wellsList_length (num_rows num_cols : ℕ) :
    (wellsList num_rows num_cols).length = num_rows * num_cols := by
  rw [wellsList, List.length_flatMap]
  have : (List.map (List.length ∘ fun r => (List.range num_cols).map fun c0 => wellName r (c0 + 1))
      (List.range num_rows)) = List.replicate num_rows num_cols := by
    rw [List.eq_replicate_iff]
    constructor
    · simp
    · intro b hb
      obtain ⟨r, _, hr⟩ := List.mem_map.mp hb
      simp only [Function.comp_apply, List.length_map, List.length_range] at hr
      omega
  rw [this, List.sum_replicate, smul_eq_mul]

theorem wellsList_nodup (num_rows num_cols : ℕ) : (wellsList num_rows num_cols).Nodup := by
  rw [wellsList, List.nodup_flatMap]
  constructor
  · intro r _
    refine List.Nodup.map_on ?_ (List.nodup_range _)
    intro x _ y _ hxy
    exact Nat.succ_injective (wellName_inj hxy).2
  · refine (List.nodup_range _).imp ?_
    intro r1 r2 hne w hw1 hw2
    obtain ⟨c1, _, hc1⟩ := List.mem_map.mp hw1
    obtain ⟨c2, _, hc2⟩ := List.mem_map.mp hw2
    exact hne ((wellName_inj (hc1.trans hc2.symm)).1)

theorem descRow_eq_reverse (r : ℕ) :
    ∀ num_cols : ℕ,
      ((List.range num_cols).map fun k => wellName r (num_cols - k)) =
        ((List.range num_cols).map fun c0 => wellName r (c0 + 1)).reverse := by
  intro num_cols
  induction num_cols with
  | zero => simp
  | succ n ih =>
    have hL : ((List.range (n + 1)).map fun k => wellName r (n + 1 - k))
        = wellName r (n + 1) :: ((List.range n).map fun k => wellName r (n - k)) := by
      rw [List.range_succ_eq_map, List.map_cons, List.map_map]
      congr 1
      refine List.map_congr_left ?_
      intro k _
      simp only [Function.comp_apply, Nat.succ_eq_add_one]
      congr 1
      omega
    have hR : (((List.range (n + 1)).map fun c0 => wellName r (c0 + 1)).reverse)
        = wellName r (n + 1) :: (((List.range n).map fun c0 => wellName r (c0 + 1)).reverse) := by
      rw [List.range_succ, List.map_append, List.reverse_append]
      simp
    rw [hL, hR, ih]

theorem flatMap_perm_of_forall {α β : Type} (l : List α) (f g : α → List β)
    (h : ∀ a ∈ l, (f a).Perm (g a)) : (l.flatMap f).Perm (l.flatMap g) := by
  induction l with
  | nil => simp
  | cons a t ih =>
    simp only [List.flatMap_cons]
    exact (h a (List.mem_cons_self a t)).append (ih fun x hx => h x (List.mem_cons_of_mem a hx))

theorem snake_perm_rowMajor (num_rows num_cols : ℕ) :
    (generate_snake_path num_rows num_cols).Perm (captureVisitOrder num_rows num_cols) := by
  rw [generate_snake_path, captureVisitOrder]
  refine flatMap_perm_of_forall _ _ _ ?_
  intro r _
  by_cases h : r % 2 = 0
  · rw [if_pos h]
  · rw [if_neg h, descRow_eq_reverse]
    exact List.reverse_perm _

theorem calcPositions_lookup (tl bl tr br : Pos) {num_rows num_cols r c : ℕ}
    (hr31 : r ≤ 31) (hr : r < num_rows) (hc1 : 1 ≤ c) (hc : c ≤ num_cols) :
    assocGet (wellName r c) (calculate_well_positions tl bl tr br num_rows num_cols)
      = some (specInterp tl bl tr br num_rows num_cols r c) := by
  rw [calculate_well_positions, assocGet_map _ _ _ (mem_wellsList hr hc1 hc),
    wellPositionAt_wellName tl bl tr br num_rows num_cols hr31 hc1]

theorem concreteExample3x4 :
    assocGet (wellName 0 1)
      (calculate_well_positions ⟨0,0,0⟩ ⟨0,20,0⟩ ⟨30,0,0⟩ ⟨30,20,0⟩ 3 4) = some ⟨0,0,0⟩
    ∧ assocGet (wellName 0 4)
      (calculate_well_positions ⟨0,0,0⟩ ⟨0,20,0⟩ ⟨30,0,0⟩ ⟨30,20,0⟩ 3 4) = some ⟨30,0,0⟩
    ∧ assocGet (wellName 2 1)
      (calculate_well_positions ⟨0,0,0⟩ ⟨0,20,0⟩ ⟨30,0,0⟩ ⟨30,20,0⟩ 3 4) = some ⟨0,20,0⟩
    ∧ assocGet (wellName 2 4)
      (calculate_well_positions ⟨0,0,0⟩ ⟨0,20,0⟩ ⟨30,0,0⟩ ⟨30,20,0⟩ 3 4) = some ⟨30,20,0⟩
    ∧ assocGet (wellName 1 2)
      (calculate_well_positions ⟨0,0,0⟩ ⟨0,20,0⟩ ⟨30,0,0⟩ ⟨30,20,0⟩ 3 4) = some ⟨10,10,0⟩ := by
  have h0 : round2 (0:ℚ) = 0 := round2_twoDec ⟨0, by norm_num⟩
  have h10 : round2 (10:ℚ) = 10 := round2_twoDec ⟨1000, by norm_num⟩
  have h20 : TwoDec (20:ℚ) := ⟨2000, by norm_num⟩
  have h30 : TwoDec (30:ℚ) := ⟨3000, by norm_num⟩
  have hz : TwoDec (0:ℚ) := ⟨0, by norm_num⟩
  refine ⟨?_, ?_, ?_, ?_, ?_⟩
  · rw [calcPositions_lookup _ _ _ _ (by norm_num) (by norm_num) (by norm_num) (by norm_num)]
    rw [specInterp_top_left, round2Pos_twoDec hz hz hz]
  · rw [calcPositions_lookup _ _ _ _ (by norm_num) (by norm_num) (by norm_num) (by norm_num)]
    rw [specInterp_top_right _ _ _ _ _ _ (by norm_num), round2Pos_twoDec h30 hz hz]
  · rw [calcPositions_lookup _ _ _ _ (by norm_num) (by norm_num) (by norm_num) (by norm_num)]
    rw [show (2:ℕ) = 3 - 1 from rfl, specInterp_bottom_left _ _ _ _ _ _ (by norm_num),
      round2Pos_twoDec hz h20 hz]
  · rw [calcPositions_lookup _ _ _ _ (by norm_num) (by norm_num) (by norm_num) (by norm_num)]
    rw [show (2:ℕ) = 3 - 1 from rfl,
      specInterp_bottom_right _ _ _ _ _ _ (by norm_num) (by norm_num),
      round2Pos_twoDec h30 h20 hz]
  · rw [calcPositions_lookup _ _ _ _ (by norm_num) (by norm_num) (by norm_num) (by norm_num)]
    congr 1
    simp only [specInterp]
    norm_num [Pos.mk.injEq, h10, h0]

/-- Claim C1, counterexample to the claim as stated: for the rectangular
corner set with `top_left = (0.123, 0, 0)`, `top_right = (30.123, 0, 0)`,
`bottom_left = (0.123, 20, 0)`, `bottom_right = (30.123, 20, 0)` and a
3×4 grid, the extreme well `"A1"` maps to `(0.12, 0, 0)` (each axis is
rounded to 2 decimal places), which differs from the corner
`top_left = (0.123, 0, 0)` — so the four extreme wells do not equal the
four corners exactly. -/
theorem claim1_extreme_corner_counterexample :
    assocGet (wellName 0 1)
      (calculate_well_positions ⟨123/1000, 0, 0⟩ ⟨123/1000, 20, 0⟩
        ⟨30123/1000, 0, 0⟩ ⟨30123/1000, 20, 0⟩ 3 4)
      = some ⟨3/25, 0, 0⟩
    ∧ (⟨3/25, 0, 0⟩ : Pos) ≠ (⟨123/1000, 0, 0⟩ : Pos) := by
  constructor
  · rw [calcPositions_lookup _ _ _ _ (by norm_num) (by norm_num) (by norm_num) (by norm_num)]
    rw [specInterp_top_left]
    have hx : round2 ((123:ℚ)/1000) = 3/25 := by
      rw [round2]
      norm_num [round_eq]
    have h0 : round2 (0:ℚ) = 0 := round2_twoDec ⟨0, by norm_num⟩
    simp only [round2Pos, hx, h0]
  · simp only [ne_eq, Pos.mk.injEq, not_and]
    intro h
    norm_num at h

/-- Claim C1, amended: for every corner set and every grid with
`1 ≤ rows ≤ 32` and `cols ≥ 1`, `calculate_well_positions` maps each well
to the two-stage interpolation of the claim (top edge at `u`, bottom edge
at `u`, blend at `v`, each axis rounded to 2 decimal places); the four
extreme wells of a grid with `rows, cols ≥ 2` equal the four corners
rounded to 2 decimal places — hence equal the corners exactly whenever
every corner coordinate is an exact multiple of 0.01; and the concrete
3×4 example holds as claimed.  (The bound `rows ≤ 32` is forced because
the code re-parses the row letter with `ord(letter.upper()) - ord('A')`,
which aliases row 32 (`'a'`) back to row 0; the rounding proviso is
forced by the counterexample above.) -/
theorem claim1_bilinear_positions :
    (∀ (tl bl tr br : Pos) (num_rows num_cols r c : ℕ),
        1 ≤ num_rows → num_rows ≤ 32 → 1 ≤ num_cols →
        r < num_rows → 1 ≤ c → c ≤ num_cols →
        assocGet (wellName r c) (calculate_well_positions tl bl tr br num_rows num_cols)
          = some (specInterp tl bl tr br num_rows num_cols r c))
    ∧ (∀ (tl bl tr br : Pos) (num_rows num_cols : ℕ),
        2 ≤ num_rows → num_rows ≤ 32 → 2 ≤ num_cols →
        assocGet (wellName 0 1) (calculate_well_positions tl bl tr br num_rows num_cols)
            = some (round2Pos tl)
        ∧ assocGet (wellName 0 num_cols) (calculate_well_positions tl bl tr br num_rows num_cols)
            = some (round2Pos tr)
        ∧ assocGet (wellName (num_rows - 1) 1) (calculate_well_positions tl bl tr br num_rows num_cols)
            = some (round2Pos bl)
        ∧ assocGet (wellName (num_rows - 1) num_cols) (calculate_well_positions tl bl tr br num_rows num_cols)
            = some (round2Pos br))
    ∧ (∀ p : Pos, TwoDec p.X → TwoDec p.Y → TwoDec p.Z → round2Pos p = p)
    ∧ (assocGet (wellName 0 1)
        (calculate_well_positions ⟨0,0,0⟩ ⟨0,20,0⟩ ⟨30,0,0⟩ ⟨30,20,0⟩ 3 4) = some ⟨0,0,0⟩
      ∧ assocGet (wellName 0 4)
        (calculate_well_positions ⟨0,0,0⟩ ⟨0,20,0⟩ ⟨30,0,0⟩ ⟨30,20,0⟩ 3 4) = some ⟨30,0,0⟩
      ∧ assocGet (wellName 2 1)
        (calculate_well_positions ⟨0,0,0⟩ ⟨0,20,0⟩ ⟨30,0,0⟩ ⟨30,20,0⟩ 3 4) = some ⟨0,20,0⟩
      ∧ assocGet (wellName 2 4)
        (calculate_well_positions ⟨0,0,0⟩ ⟨0,20,0⟩ ⟨30,0,0⟩ ⟨30,20,0⟩ 3 4) = some ⟨30,20,0⟩
      ∧ assocGet (wellName 1 2)
        (calculate_well_positions ⟨0,0,0⟩ ⟨0,20,0⟩ ⟨30,0,0⟩ ⟨30,20,0⟩ 3 4) = some ⟨10,10,0⟩) := by
  refine ⟨?_, ?_, ?_, concreteExample3x4⟩
  · intro tl bl tr br num_rows num_cols r c _ h32 _ hr hc1 hc2
    exact calcPositions_lookup tl bl tr br (by omega) hr hc1 hc2
  · intro tl bl tr br num_rows num_cols hr2 h32 hc2
    refine ⟨?_, ?_, ?_, ?_⟩
    · rw [calcPositions_lookup _ _ _ _ (by omega) (by omega) (by omega) (by omega),
        specInterp_top_left]
    · rw [calcPositions_lookup _ _ _ _ (by omega) (by omega) (by omega) (by omega),
        specInterp_top_right _ _ _ _ _ _ hc2]
    · rw [calcPositions_lookup _ _ _ _ (by omega) (by omega) (by omega) (by omega),
        specInterp_bottom_left _ _ _ _ _ _ hr2]
    · rw [calcPositions_lookup _ _ _ _ (by omega) (by omega) (by omega) (by omega),
        specInterp_bottom_right _ _ _ _ _ _ hr2 hc2]
  · intro p hx hy hz
    exact round2Pos_twoDec hx hy hz

/-- Claim C1, witness: the general formula conjunct applied at the
concrete 3×4 grid, well `"B2"`. -/
theorem claim1_bilinear_positions_witness :
    (1 ≤ 3 ∧ (3:ℕ) ≤ 32 ∧ 1 ≤ 4 ∧ 1 < 3 ∧ 1 ≤ 2 ∧ 2 ≤ 4)
    ∧ assocGet (wellName 1 2)
        (calculate_well_positions ⟨0,0,0⟩ ⟨0,20,0⟩ ⟨30,0,0⟩ ⟨30,20,0⟩ 3 4)
      = some (specInterp ⟨0,0,0⟩ ⟨0,20,0⟩ ⟨30,0,0⟩ ⟨30,20,0⟩ 3 4 1 2) :=
  ⟨by norm_num,
   claim1_bilinear_positions.1 ⟨0,0,0⟩ ⟨0,20,0⟩ ⟨30,0,0⟩ ⟨30,20,0⟩ 3 4 1 2
     (by norm_num) (by norm_num) (by norm_num) (by norm_num) (by norm_num) (by norm_num)⟩

/-- Claim C9: the two copies of `calculate_well_positions` — in
`auto_blank_capture.py` and in `well_plate_location_gui.py` — are
extensionally equal: for every corner set and every grid they return the
same well-name-to-position dictionary. -/
theorem claim9_copies_extensionally_equal :
    ∀ (top_left bottom_left top_right bottom_right : Pos) (num_rows num_cols : ℕ),
      calculate_well_positions top_left bottom_left top_right bottom_right num_rows num_cols
        = guiCalculateWellPositions top_left bottom_left top_right bottom_right num_rows num_cols :=
  fun _ _ _ _ _ _ => rfl

/-- Claim C4, counterexample to the claim as stated: for a 2×3 grid the
capture orchestrator of `auto_blank_capture.py` visits
`A1, A2, A3, B1, B2, B3` (row-major), while `generate_snake_path`
produces the serpentine order `A1, A2, A3, B3, B2, B1`; the two orders
differ, so `capture_blanks_automated` does not visit wells in the
serpentine order. -/
theorem claim4_visit_order_counterexample :
    captureVisitOrder 2 3
      = [wellName 0 1, wellName 0 2, wellName 0 3, wellName 1 1, wellName 1 2, wellName 1 3]
    ∧ generate_snake_path 2 3
      = [wellName 0 1, wellName 0 2, wellName 0 3, wellName 1 3, wellName 1 2, wellName 1 1]
    ∧ captureVisitOrder 2 3 ≠ generate_snake_path 2 3 := by
  refine ⟨by decide, by decide, by decide⟩

/-- Claim C4, amended: `capture_blanks_automated` visits the wells in
plain row-major order (every row ascending by column); the serpentine
order is produced only by `generate_snake_path` in the GUI module, which
does traverse even row indices ascending and odd row indices descending
(the descending row being the reverse of the ascending one), so the two
orders are permutations of each other; for a 2×3 grid the orders are
`A1,A2,A3,B1,B2,B3` and `A1,A2,A3,B3,B2,B1` respectively. -/
theorem claim4_visit_order_amended :
    captureVisitOrder 2 3
      = [wellName 0 1, wellName 0 2, wellName 0 3, wellName 1 1, wellName 1 2, wellName 1 3]
    ∧ generate_snake_path 2 3
      = [wellName 0 1, wellName 0 2, wellName 0 3, wellName 1 3, wellName 1 2, wellName 1 1]
    ∧ (∀ num_rows num_cols : ℕ,
        generate_snake_path num_rows num_cols =
          (List.range num_rows).flatMap fun r =>
            if r % 2 = 0 then (List.range num_cols).map fun c0 => wellName r (c0 + 1)
            else ((List.range num_cols).map fun c0 => wellName r (c0 + 1)).reverse)
    ∧ (∀ num_rows num_cols : ℕ,
        (generate_snake_path num_rows num_cols).Perm (captureVisitOrder num_rows num_cols)) := by
  refine ⟨by decide, by decide, ?_, snake_perm_rowMajor⟩
  intro num_rows num_cols
  rw [generate_snake_path]
  refine List.flatMap_congr ?_  -- congruence over the row blocks
  intro r _
  by_cases h : r % 2 = 0
  · rw [if_pos h, if_pos h]
  · rw [if_neg h, if_neg h, descRow_eq_reverse]

/-- Claim C10: for every grid with at least one row and one column,
`generate_snake_path` lists exactly `rows * cols` well identifiers, each
well exactly once, and its entries are exactly the keys of the dictionary
returned by the GUI copy of `calculate_well_positions`, so looking up the
position of every path entry succeeds. -/
theorem claim10_snake_path_covers_grid :
    ∀ num_rows num_cols : ℕ, 1 ≤ num_rows → 1 ≤ num_cols →
      (generate_snake_path num_rows num_cols).length = num_rows * num_cols
      ∧ (generate_snake_path num_rows num_cols).Nodup
      ∧ (∀ w : PyStr, w ∈ generate_snake_path num_rows num_cols ↔
          w ∈ (guiCalculateWellPositions ⟨0,0,0⟩ ⟨0,0,0⟩ ⟨0,0,0⟩ ⟨0,0,0⟩
                num_rows num_cols).map Prod.fst)
      ∧ (∀ (tl bl tr br : Pos), ∀ w ∈ generate_snake_path num_rows num_cols,
          assocGet w (guiCalculateWellPositions tl bl tr br num_rows num_cols) ≠ none) := by
  intro num_rows num_cols _ _
  have hperm : (generate_snake_path num_rows num_cols).Perm (wellsList num_rows num_cols) :=
    snake_perm_rowMajor num_rows num_cols
  have hkeys : ∀ tl bl tr br : Pos,
      (guiCalculateWellPositions tl bl tr br num_rows num_cols).map Prod.fst
        = wellsList num_rows num_cols := by
    intro tl bl tr br
    rw [guiCalculateWellPositions, List.map_map]
    exact List.map_id _
  refine ⟨hperm.length_eq.trans (wellsList_length _ _),
    hperm.nodup_iff.mpr (wellsList_nodup _ _), ?_, ?_⟩
  · intro w
    rw [hkeys]
    exact hperm.mem_iff
  · intro tl bl tr br w hw
    have hmem : w ∈ guiWellsList num_rows num_cols := hperm.mem_iff.mp hw
    rw [guiCalculateWellPositions,
      assocGet_map (guiWellPositionAt tl bl tr br num_rows num_cols) _ _ hmem]
    simp

/-- Claim C10, witness at the 2×3 grid. -/
theorem claim10_snake_path_covers_grid_witness :
    (1 ≤ 2 ∧ 1 ≤ 3) ∧ (generate_snake_path 2 3).length = 2 * 3 :=
  ⟨⟨by norm_num, by norm_num⟩,
   (claim10_snake_path_covers_grid 2 3 (by norm_num) (by norm_num)).1⟩

/-! ## Calibration pipeline

Source: `as7343_wellplate.py` lines 144-161
(`compute_absorbance_and_transmittance`, with `EPS = 1.0` at line 52) and
`as7343_plot_v2.py` lines 109-137 (`apply_calibration`, with `EPS = 1e-9`
at line 27) and lines 192-234 (`on_key`). -/

/-- Number of spectral channels: `NUM_CH = len(LABELS) = 13`. -/
def NUM_CH : ℕ := 13

/-- A channel vector: one value per spectral channel.  Both programs
maintain the invariant that every sample/reference vector has exactly
`NUM_CH` entries, so vectors are modelled as total functions on
`Fin NUM_CH`. -/
abbrev ChannelVec := Fin NUM_CH → ℚ

/-- `EPS` of `as7343_wellplate.py` (line 52): the counts floor applied
after dark subtraction. -/
def epsWellplate : ℚ := 1

/-- `EPS` of `as7343_plot_v2.py` (line 27). -/
def epsPlot : ℚ := 1 / 10 ^ 9

/-- Value of `dark[i] if dark is not None else 0.0`
(`as7343_wellplate.py` lines 153-154).  The truthiness variant
`dark_ref[i] if dark_ref else 0` of `as7343_plot_v2.py` lines 125 and 133
agrees with this whenever the dark reference, when present, is a
full-length channel vector — the invariant both programs maintain. -/
def darkAt (dark : Option ChannelVec) (i : Fin NUM_CH) : ℚ :=
  match dark with
  | some d => d i
  | none => 0

/-- The dark-corrected, eps-floored sample intensity `I` of
`compute_absorbance_and_transmittance` (`as7343_wellplate.py` lines
153, 155: `I = sample[i] - dark[i]; if I < eps: I = eps`). -/
def sampleCorr (sample : ChannelVec) (dark : Option ChannelVec) (eps : ℚ)
    (i : Fin NUM_CH) : ℚ :=
  let I := sample i - darkAt dark i
  if I < eps then eps else I

/-- The dark-corrected, eps-floored blank intensity `I0`
(`as7343_wellplate.py` lines 154, 156). -/
def blankCorr (blank : ChannelVec) (dark : Option ChannelVec) (eps : ℚ)
    (i : Fin NUM_CH) : ℚ :=
  let I0 := blank i - darkAt dark i
  if I0 < eps then eps else I0

/-- `compute_absorbance_and_transmittance` (`as7343_wellplate.py` lines
144-161): per channel, `a = log10(I0 / I)` and `t = 100 * 10 ** (-a)`,
returned as the pair `(A, T)`. -/
noncomputable def compute_absorbance_and_transmittance
    (sample blank : ChannelVec) (dark : Option ChannelVec) (eps : ℚ) :
    (Fin NUM_CH → ℝ) × (Fin NUM_CH → ℝ) :=
  (fun i => Real.logb 10
      ((blankCorr blank dark eps i / sampleCorr sample dark eps i : ℚ) : ℝ),
   fun i => 100 * (10:ℝ) ^
      (-(Real.logb 10
        ((blankCorr blank dark eps i / sampleCorr sample dark eps i : ℚ) : ℝ))))

/-- `apply_calibration` (`as7343_plot_v2.py` lines 109-137), as a function
of the module-level state `MODE`, `dark_ref`, `white_ref`, `blank_ref`
and the input `vals`.  The final fall-through `return vals` covers every
case not taken by the three mode branches — in particular ABS_TX with the
blank reference unset. -/
noncomputable def applyCalibration (MODE : String)
    (dark_ref white_ref blank_ref : Option ChannelVec) (vals : ChannelVec) :
    Fin NUM_CH → ℝ :=
  if MODE = "RAW" then fun i => ((vals i : ℚ) : ℝ)
  else if MODE = "REFLECTANCE" ∨ MODE = "ABSORBANCE" then
    let vals' : ChannelVec :=
      match dark_ref with
      | some d => fun i => max (vals i - d i) epsPlot
      | none => vals
    match white_ref with
    | none => fun i => ((vals' i : ℚ) : ℝ)
    | some wht =>
      let w : ChannelVec := fun i => max (wht i - darkAt dark_ref i) epsPlot
      let R : ChannelVec := fun i => vals' i / w i
      if MODE = "REFLECTANCE" then fun i => ((R i : ℚ) : ℝ)
      else fun i => -Real.logb 10 ((max (R i) epsPlot : ℚ) : ℝ)
  else
    match blank_ref with
    | some bv =>
      if MODE = "ABS_TX" then
        fun i => Real.logb 10
          ((max (bv i - darkAt dark_ref i) epsPlot
              / max (vals i - darkAt dark_ref i) epsPlot : ℚ) : ℝ)
      else fun i => ((vals i : ℚ) : ℝ)
    | none => fun i => ((vals i : ℚ) : ℝ)

/-- Claim C2: for every sample, blank and optional dark vector (all-zero
channels included) and every positive floor `eps`, the ABS_TX reduction
floors both the dark-subtracted numerator and denominator at `eps` before
dividing, so the denominator is bounded below by `eps` (no division by
zero), the argument of `log10` is strictly positive (no math-domain
error), and the absorbance is the logarithm of a positive real — a finite
value; the same holds in the ABS_TX branch of `apply_calibration` with
its floor `EPS = 1e-9`. -/
theorem claim2_abs_tx_always_defined :
    ∀ (sample blank vals bv : ChannelVec) (dark white : Option ChannelVec) (eps : ℚ),
      0 < eps →
      (∀ i, eps ≤ sampleCorr sample dark eps i
        ∧ eps ≤ blankCorr blank dark eps i
        ∧ sampleCorr sample dark eps i ≠ 0
        ∧ 0 < blankCorr blank dark eps i / sampleCorr sample dark eps i
        ∧ (compute_absorbance_and_transmittance sample blank dark eps).1 i
            = Real.logb 10
                ((blankCorr blank dark eps i / sampleCorr sample dark eps i : ℚ) : ℝ))
      ∧ (∀ i, epsPlot ≤ max (vals i - darkAt dark i) epsPlot
        ∧ max (vals i - darkAt dark i) epsPlot ≠ 0
        ∧ (0:ℚ) < max (bv i - darkAt dark i) epsPlot
              / max (vals i - darkAt dark i) epsPlot
        ∧ applyCalibration "ABS_TX" dark white (some bv) vals i
            = Real.logb 10
                ((max (bv i - darkAt dark i) epsPlot
                    / max (vals i - darkAt dark i) epsPlot : ℚ) : ℝ)) := by
  intro sample blank vals bv dark white eps heps
  have hepsPlot : (0:ℚ) < epsPlot := by norm_num [epsPlot]
  constructor
  · intro i
    have hs : eps ≤ sampleCorr sample dark eps i := by
      rw [sampleCorr]
      split
      · exact le_rfl
      · next h => exact le_of_not_lt h
    have hb : eps ≤ blankCorr blank dark eps i := by
      rw [blankCorr]
      split
      · exact le_rfl
      · next h => exact le_of_not_lt h
    have hspos : 0 < sampleCorr sample dark eps i := lt_of_lt_of_le heps hs
    have hbpos : 0 < blankCorr blank dark eps i := lt_of_lt_of_le heps hb
    exact ⟨hs, hb, ne_of_gt hspos, div_pos hbpos hspos, rfl⟩
  · intro i
    have h1 : epsPlot ≤ max (vals i - darkAt dark i) epsPlot := le_max_right _ _
    have h1pos : (0:ℚ) < max (vals i - darkAt dark i) epsPlot :=
      lt_of_lt_of_le hepsPlot h1
    have h2pos : (0:ℚ) < max (bv i - darkAt dark i) epsPlot :=
      lt_of_lt_of_le hepsPlot (le_max_right _ _)
    exact ⟨h1, ne_of_gt h1pos, div_pos h2pos h1pos, rfl⟩

/-- Claim C2, witness: all-zero sensor data, no dark reference, the
wellplate floor `EPS = 1.0`. -/
theorem claim2_abs_tx_always_defined_witness :
    (0:ℚ) < epsWellplate ∧
    ((∀ i, epsWellplate ≤ sampleCorr (fun _ => 0) none epsWellplate i
        ∧ epsWellplate ≤ blankCorr (fun _ => 0) none epsWellplate i
        ∧ sampleCorr (fun _ => 0) none epsWellplate i ≠ 0
        ∧ 0 < blankCorr (fun _ => 0) none epsWellplate i
              / sampleCorr (fun _ => 0) none epsWellplate i
        ∧ (compute_absorbance_and_transmittance (fun _ => 0) (fun _ => 0) none epsWellplate).1 i
            = Real.logb 10
                ((blankCorr (fun _ => 0) none epsWellplate i
                    / sampleCorr (fun _ => 0) none epsWellplate i : ℚ) : ℝ))
      ∧ (∀ i, epsPlot ≤ max ((0:ℚ) - darkAt none i) epsPlot
        ∧ max ((0:ℚ) - darkAt none i) epsPlot ≠ 0
        ∧ (0:ℚ) < max ((0:ℚ) - darkAt none i) epsPlot
              / max ((0:ℚ) - darkAt none i) epsPlot
        ∧ applyCalibration "ABS_TX" none none (some (fun _ => 0)) (fun _ => 0) i
            = Real.logb 10
                ((max ((0:ℚ) - darkAt none i) epsPlot
                    / max ((0:ℚ) - darkAt none i) epsPlot : ℚ) : ℝ))) :=
  ⟨by norm_num [epsWellplate],
   claim2_abs_tx_always_defined (fun _ => 0) (fun _ => 0) (fun _ => 0) (fun _ => 0)
     none none epsWellplate (by norm_num [epsWellplate])⟩

/-- Claim C3, counterexample to the claim as stated: with mode ABS_TX and
the blank reference unset, `apply_calibration` falls through to
`return vals` — on the all-fives input it returns the all-fives vector,
not an all-zero vector. -/
theorem claim3_unset_blank_counterexample :
    applyCalibration "ABS_TX" none none none (fun _ => 5) = (fun _ => ((5:ℚ) : ℝ))
    ∧ applyCalibration "ABS_TX" none none none (fun _ => 5) ≠ (fun _ => (0:ℝ)) := by
  have heq : applyCalibration "ABS_TX" none none none (fun _ => 5)
      = fun _ => ((5:ℚ) : ℝ) := rfl
  refine ⟨heq, ?_⟩
  rw [heq]
  intro h
  have h0 := congrFun h ⟨0, by norm_num [NUM_CH]⟩
  norm_num at h0

/-- Claim C3, amended: for every input vector, when the mode is ABS_TX
and the blank reference is unset, `apply_calibration` returns the input
vector unchanged — a fully-defined vector of length N, produced without
raising — rather than an all-zero vector. -/
theorem claim3_unset_blank_passthrough :
    ∀ (dark_ref white_ref : Option ChannelVec) (vals : ChannelVec),
      applyCalibration "ABS_TX" dark_ref white_ref none vals
        = fun i => ((vals i : ℚ) : ℝ) :=
  fun _ _ _ => rfl

/-- The mode-advance dict of `on_key` (`as7343_plot_v2.py` lines
224-229): only four modes, and no `"TRANSMITTANCE"` entry. -/
def modeTable : List (String × String) :=
  [("RAW", "REFLECTANCE"), ("REFLECTANCE", "ABSORBANCE"),
   ("ABSORBANCE", "ABS_TX"), ("ABS_TX", "RAW")]

/-- `MODE = {...}[MODE]`: Python dict indexing, with `none` modelling
`KeyError`. -/
def nextMode (m : String) : Option String := modeTable.lookup m

/-- Effect of one `on_key` event on `MODE` (`as7343_plot_v2.py` lines
192-234), as a function of the lowered key string `(event.key or
"").lower()`: only the `"m"` branch assigns `MODE`; every other branch
leaves it unchanged. -/
def onKeyMode (key MODE : String) : Option String :=
  if key = "m" then nextMode MODE else some MODE

/-- Claim C5, counterexample to the claim as stated: one mode-advance
step from ABSORBANCE yields ABS_TX, not TRANSMITTANCE, and
"TRANSMITTANCE" is not even a key of the transition dict — the display
mode cycle has four states, not five. -/
theorem claim5_mode_cycle_counterexample :
    onKeyMode "m" "ABSORBANCE" = some "ABS_TX"
    ∧ onKeyMode "m" "ABSORBANCE" ≠ some "TRANSMITTANCE"
    ∧ nextMode "TRANSMITTANCE" = none := by
  refine ⟨by decide, by decide, by decide⟩

/-- Claim C5, amended: the display mode advances only on the explicit
`"m"` key action, and cycles through exactly the four modes
RAW → REFLECTANCE → ABSORBANCE → ABS_TX → RAW (there is no
TRANSMITTANCE mode in `as7343_plot_v2.py`); every other key leaves the
mode unchanged. -/
theorem claim5_mode_cycle :
    onKeyMode "m" "RAW" = some "REFLECTANCE"
    ∧ onKeyMode "m" "REFLECTANCE" = some "ABSORBANCE"
    ∧ onKeyMode "m" "ABSORBANCE" = some "ABS_TX"
    ∧ onKeyMode "m" "ABS_TX" = some "RAW"
    ∧ (∀ key MODE : String, key ≠ "m" → onKeyMode key MODE = some MODE) := by
  refine ⟨by decide, by decide, by decide, by decide, ?_⟩
  intro key MODE h
  rw [onKeyMode, if_neg h]

/-- Claim C5, witness: the `"d"` (dark capture) key does not change the
mode. -/
theorem claim5_mode_cycle_witness :
    ("d" : String) ≠ "m" ∧ onKeyMode "d" "RAW" = some "RAW" :=
  ⟨by decide, claim5_mode_cycle.2.2.2.2 "d" "RAW" (by decide)⟩

/-! ## Motion protocol: `send_gcode`

Source: `auto_blank_capture.py` lines 379-402 and
`well_plate_location_gui.py` lines 28-57.  Both copies write the command
line and then loop `while True:` reading response lines; a line whose
lowered text contains `"ok"` ends the loop successfully, a line
containing `"error"` ends it as an explicit error acknowledgment (the GUI
copy returns `False`, the capture copy prints and breaks), and a line
that fails strict UTF-8 decoding is decoded permissively
(`latin-1, errors='ignore'`, total on every byte) instead of raising.
The command write itself is plain byte I/O and carries no logic; the
model covers the read loop, driven by the (finite) sequence of response
lines that will ever arrive — an exhausted sequence leaves the Python
loop polling forever, which the model records as the outcome `hang`. -/

/-- Strict UTF-8 decoding of a byte sequence into code points, `none` on
any malformed sequence (models `bytes.decode('utf-8')` raising
`UnicodeDecodeError`). -/
def utf8Decode? : List ℕ → Option (List ℕ)
  | [] => some []
  | b :: bs =>
    if b ≤ 0x7F then
      (utf8Decode? bs).map (b :: ·)
    else if 0xC2 ≤ b ∧ b ≤ 0xDF then
      match bs with
      | b2 :: bs2 =>
        if 0x80 ≤ b2 ∧ b2 ≤ 0xBF then
          (utf8Decode? bs2).map (((b - 0xC0) * 0x40 + (b2 - 0x80)) :: ·)
        else none
      | [] => none
    else if 0xE0 ≤ b ∧ b ≤ 0xEF then
      match bs with
      | b2 :: b3 :: bs3 =>
        if (0x80 ≤ b2 ∧ b2 ≤ 0xBF) ∧ (0x80 ≤ b3 ∧ b3 ≤ 0xBF)
            ∧ (b = 0xE0 → 0xA0 ≤ b2) ∧ (b = 0xED → b2 ≤ 0x9F) then
          (utf8Decode? bs3).map
            (((b - 0xE0) * 0x1000 + (b2 - 0x80) * 0x40 + (b3 - 0x80)) :: ·)
        else none
      | _ => none
    else if 0xF0 ≤ b ∧ b ≤ 0xF4 then
      match bs with
      | b2 :: b3 :: b4 :: bs4 =>
        if (0x80 ≤ b2 ∧ b2 ≤ 0xBF) ∧ (0x80 ≤ b3 ∧ b3 ≤ 0xBF) ∧ (0x80 ≤ b4 ∧ b4 ≤ 0xBF)
            ∧ (b = 0xF0 → 0x90 ≤ b2) ∧ (b = 0xF4 → b2 ≤ 0x8F) then
          (utf8Decode? bs4).map
            (((b - 0xF0) * 0x40000 + (b2 - 0x80) * 0x1000
                + (b3 - 0x80) * 0x40 + (b4 - 0x80)) :: ·)
        else none
      | _ => none
    else none

/-- Decoding of one raw response line as both copies of `send_gcode` do
it: strict UTF-8 first, and on failure the permissive fallback
`raw_data.decode('latin-1', errors='ignore')`, which maps every byte to
its own code point and never raises. -/
def pyDecodeLine (raw : List ℕ) : PyStr :=
  match utf8Decode? raw with
  | some s => s
  | none => raw

/-- Python `str.strip()` whitespace set (space, tab, newline, vertical
tab, form feed, carriage return). -/
def isPySpace (c : ℕ) : Bool := c ∈ [9, 10, 11, 12, 13, 32]

/-- Model of `str.strip()`. -/
def pyStrip (s : PyStr) : PyStr :=
  ((s.dropWhile isPySpace).reverse.dropWhile isPySpace).reverse

/-- Model of Python substring containment `tok in s`. -/
def containsTok (s tok : PyStr) : Bool :=
  (List.range (s.length + 1)).any fun k => (s.drop k).take tok.length == tok

/-- The code points of `"ok"`. -/
def okTok : PyStr := [111, 107]

/-- The code points of `"error"`. -/
def errorTok : PyStr := [101, 114, 114, 111, 114]

/-- Classification of one response line by the `send_gcode` read loop:
decode (with permissive fallback), strip, lower; `some true` when the
text contains `"ok"`, otherwise `some false` when it contains `"error"`,
otherwise `none` (keep waiting). -/
def lineAck (raw : List ℕ) : Option Bool :=
  let response := pyLower (pyStrip (pyDecodeLine raw))
  if containsTok response okTok then some true
  else if containsTok response errorTok then some false
  else none

/-- Outcome of the `send_gcode` read loop of `auto_blank_capture.py`:
`ok` (break on acknowledgment), `errorAck` (explicit error reported, loop
ends, not retried), or `hang` — the `while True:` loop never sees either
token and polls forever; there is no timeout path in the code. -/
inductive SendOutcome
  | ok
  | errorAck
  | hang
deriving DecidableEq, Repr

/-- The read loop of `send_gcode` in `auto_blank_capture.py` (lines
386-402), as a function of the finite sequence of response lines that
will ever arrive. -/
def send_gcode_abc : List (List ℕ) → SendOutcome
  | [] => .hang
  | raw :: rest =>
    match lineAck raw with
    | some true => .ok
    | some false => .errorAck
    | none => send_gcode_abc rest

/-- The read loop of `send_gcode` in `well_plate_location_gui.py` (lines
35-57): returns `True` on `"ok"`, `False` on `"error"`, and never returns
(`none`) if neither token ever arrives. -/
def send_gcode_gui : List (List ℕ) → Option Bool
  | [] => none
  | raw :: rest =>
    match lineAck raw with
    | some true => some true
    | some false => some false
    | none => send_gcode_gui rest

/-- Claim C6, counterexample to the claim as stated: when neither `"ok"`
nor `"error"` ever arrives (here the controller only ever sends the line
`"busy"`), both copies of `send_gcode` spin in their `while True:` loop
forever — the outcome is the non-termination outcome, not a bounded-wait
timeout; no timeout path exists in either copy. -/
theorem claim6_no_timeout_counterexample :
    send_gcode_abc [[98, 117, 115, 121]] = SendOutcome.hang
    ∧ send_gcode_gui [[98, 117, 115, 121]] = none := by
  refine ⟨by decide, by decide⟩

/-- Claim C6, amended: `send_gcode` writes the command and reads response
lines until one contains `"ok"` (success) or `"error"` (failure, ending
the loop without retry); a line that is not strict UTF-8 is decoded by
the permissive fallback (identity on bytes, never raising) and the loop
continues; but if neither token ever arrives the loop polls forever —
there is no bounded wait and no timeout outcome. -/
theorem claim6_send_gcode_scan :
    (∀ raw rest, lineAck raw = some true →
        send_gcode_abc (raw :: rest) = SendOutcome.ok
        ∧ send_gcode_gui (raw :: rest) = some true)
    ∧ (∀ raw rest, lineAck raw = some false →
        send_gcode_abc (raw :: rest) = SendOutcome.errorAck
        ∧ send_gcode_gui (raw :: rest) = some false)
    ∧ (∀ raw rest, lineAck raw = none →
        send_gcode_abc (raw :: rest) = send_gcode_abc rest
        ∧ send_gcode_gui (raw :: rest) = send_gcode_gui rest)
    ∧ (∀ raw, utf8Decode? raw = none → pyDecodeLine raw = raw)
    ∧ (∀ lines, (∀ l ∈ lines, lineAck l = none) →
        send_gcode_abc lines = SendOutcome.hang ∧ send_gcode_gui lines = none) := by
  refine ⟨?_, ?_, ?_, ?_, ?_⟩
  · intro raw rest h
    constructor <;> simp [send_gcode_abc, send_gcode_gui, h]
  · intro raw rest h
    constructor <;> simp [send_gcode_abc, send_gcode_gui, h]
  · intro raw rest h
    constructor <;> simp [send_gcode_abc, send_gcode_gui, h]
  · intro raw h
    rw [pyDecodeLine, h]
  · intro lines
    induction lines with
    | nil => intro _; exact ⟨rfl, rfl⟩
    | cons raw rest ih =>
      intro h
      have hr : lineAck raw = none := h raw (List.mem_cons_self raw rest)
      have := ih fun l hl => h l (List.mem_cons_of_mem raw hl)
      constructor <;> simp [send_gcode_abc, send_gcode_gui, hr, this.1, this.2]

/-- Claim C6, witness: the single response line `"ok"` acknowledges both
copies. -/
theorem claim6_send_gcode_scan_witness :
    lineAck [111, 107] = some true
    ∧ send_gcode_abc [[111, 107]] = SendOutcome.ok
    ∧ send_gcode_gui [[111, 107]] = some true :=
  ⟨by decide,
   (claim6_send_gcode_scan.1 [111, 107] [] (by decide)).1,
   (claim6_send_gcode_scan.1 [111, 107] [] (by decide)).2⟩

/-! ## Capture orchestrator: cooperative cancellation

Source: `auto_blank_capture.py` lines 534-646.  `blanks` is pre-seeded
with `None` for every well; the per-well loop polls the GUI stop flag at
the top of each iteration and breaks before moving/capturing when it is
set; the payload is then built and saved with whatever was captured.
Cancellation is a normal break — it never takes the exception (`Failed`)
path. -/

/-- Terminal status of one capture run: `completed` (loop ran through all
wells), `cancelled` (loop broke on the polled stop flag, printing
"Capture cancelled by user."), `failed` (an exception propagated — never
the result of cancellation). -/
inductive RunStatus
  | completed
  | cancelled
  | failed
deriving DecidableEq, Repr

/-- The per-well loop of `capture_blanks_automated` (lines 557-627):
iteration `i` (1-based, as in `enumerate(wells, 1)`) first polls the stop
flag (`stop i` is the value observed by that poll) and breaks if it is
set, leaving every remaining well at its pre-seeded `None`; otherwise it
captures `reads i` as the blank for the current well. -/
def captureLoop (reads : ℕ → ChannelVec) (stop : ℕ → Bool) :
    List PyStr → ℕ → List (PyStr × Option ChannelVec) × RunStatus
  | [], _ => ([], .completed)
  | w :: ws, i =>
    if stop i then ((w :: ws).map fun u => (u, none), .cancelled)
    else
      let rest := captureLoop reads stop ws (i + 1)
      ((w, some (reads i)) :: rest.1, rest.2)

/-- The emitted payload of `capture_blanks_automated` (lines 632-644):
the per-well blanks dict and the dark vector (constant metadata fields
omitted). -/
structure CapturePayload where
  blanks : List (PyStr × Option ChannelVec)
  dark : Option ChannelVec

/-- The blank-capture pass of `capture_blanks_automated`: run the
per-well loop from index 1, then emit the payload (the save happens on
both the completed and the cancelled path). -/
def capture_blanks_automated (wells : List PyStr) (reads : ℕ → ChannelVec)
    (stop : ℕ → Bool) (dark : Option ChannelVec) : CapturePayload × RunStatus :=
  let res := captureLoop reads stop wells 1
  (⟨res.1, dark⟩, res.2)

/-- The expected captured prefix: well `j` of the list (0-based) paired
with the read taken at loop index `i + j`. -/
def tagCaptured (reads : ℕ → ChannelVec) : List PyStr → ℕ → List (PyStr × Option ChannelVec)
  | [], _ => []
  | w :: ws, i => (w, some (reads i)) :: tagCaptured reads ws (i + 1)

theorem captureLoop_cancel (reads : ℕ → ChannelVec) (stop : ℕ → Bool) :
    ∀ (wells : List PyStr) (i m : ℕ),
      (∀ k, i ≤ k → k < i + m → stop k = false) →
      stop (i + m) = true →
      m < wells.length →
      captureLoop reads stop wells i
        = (tagCaptured reads (wells.take m) i ++ (wells.drop m).map (fun u => (u, none)),
           .cancelled) := by
  intro wells
  induction wells with
  | nil =>
    intro i m _ _ hm
    simp at hm
  | cons w ws ih =>
    intro i m hfalse htrue hm
    match m with
    | 0 =>
      rw [Nat.add_zero] at htrue
      simp [captureLoop, htrue, tagCaptured]
    | m' + 1 =>
      have h0 : stop i = false := hfalse i le_rfl (by omega)
      have hrec := ih (i + 1) m'
        (fun k hk1 hk2 => hfalse k (by omega) (by omega))
        (by rw [show i + 1 + m' = i + (m' + 1) from by omega]; exact htrue)
        (by simp at hm; omega)
      simp only [captureLoop, h0, Bool.false_eq_true, if_false, hrec, List.take_succ_cons,
        List.drop_succ_cons, tagCaptured, List.cons_append]

/-- Claim C7: if the cooperative stop flag is first observed set at the
poll of iteration `m + 1`, `capture_blanks_automated` stops at that well
boundary; the emitted payload carries captured blank entries exactly for
the first `m` wells (each holding the read taken at its visit) and
`None` for every other well, the dark vector is passed through, and the
run ends as Cancelled — never as Failed. -/
theorem claim7_cancel_partial_payload :
    ∀ (wells : List PyStr) (reads : ℕ → ChannelVec) (stop : ℕ → Bool)
      (dark : Option ChannelVec) (m : ℕ),
      (∀ k, 1 ≤ k → k ≤ m → stop k = false) →
      stop (m + 1) = true →
      m < wells.length →
      (capture_blanks_automated wells reads stop dark).1.blanks
          = tagCaptured reads (wells.take m) 1 ++ (wells.drop m).map (fun u => (u, none))
      ∧ (capture_blanks_automated wells reads stop dark).1.dark = dark
      ∧ (capture_blanks_automated wells reads stop dark).2 = RunStatus.cancelled
      ∧ (capture_blanks_automated wells reads stop dark).2 ≠ RunStatus.failed := by
  intro wells reads stop dark m hfalse htrue hm
  have h := captureLoop_cancel reads stop wells 1 m
    (fun k hk1 hk2 => hfalse k hk1 (by omega))
    (by rw [show 1 + m = m + 1 from by omega]; exact htrue) hm
  refine ⟨?_, rfl, ?_, ?_⟩ <;> simp [capture_blanks_automated, h]

/-- Claim C7, witness: three wells, stop flag raised before the third
visit — the run is Cancelled. -/
theorem claim7_cancel_partial_payload_witness :
    (capture_blanks_automated [wellName 0 1, wellName 0 2, wellName 0 3]
        (fun _ => fun _ => (1:ℚ)) (fun k => decide (3 ≤ k)) none).2 = RunStatus.cancelled :=
  (claim7_cancel_partial_payload [wellName 0 1, wellName 0 2, wellName 0 3]
    (fun _ => fun _ => (1:ℚ)) (fun k => decide (3 ≤ k)) none 2
    (by intro k h1 h2; simp only [decide_eq_false_iff_not]; omega)
    (by simp) (by simp)).2.2.1

/-! ## Persistence: saving and loading per-well blanks

Source: `as7343_wellplate.py` line 44 (`WELLS`), lines 330-343 (`save`)
and lines 345-362 (`load`).  The save command writes the blanks dict
(keyed exactly by `WELLS`) and the dark vector; the load command rebuilds
a fresh all-`None` dict over `WELLS` and copies in only entries whose
well is in the current grid and whose value is not `None`.  The loaded
dict always has exactly the `WELLS` key set, so it is modelled by its
mapping. -/

/-- `WELLS` (`as7343_wellplate.py` line 44): the 12 wells
`f"{r}{c}" for r in ["A","B","C"] for c in [1,2,3,4]`. -/
def WELLS : List PyStr :=
  [65, 66, 67].flatMap fun rc => [1, 2, 3, 4].map fun c => rc :: pyStrOfNat c

/-- A stored per-well blank: `{"I0": [...], "timestamp": str}`. -/
structure BlankEntry where
  I0 : ChannelVec
  timestamp : PyStr

/-- The saved payload (`save`, lines 334-341): the blanks dict and the
dark vector (the constant metadata fields `timestamp`/`notes`/`labels`/
`eps` are omitted). -/
structure WellPayload where
  blanks : List (PyStr × Option BlankEntry)
  dark : Option ChannelVec

/-- `save` (lines 330-343): the payload records the blanks dict and dark
as they stand. -/
def savePayload (blanks : List (PyStr × Option BlankEntry)) (dark : Option ChannelVec) :
    WellPayload :=
  ⟨blanks, dark⟩

/-- One step of the `load` reconciliation loop
(`for w, v in in_blanks.items(): if w in new_blanks and v is not None:
new_blanks[w] = v`). -/
def loadStep (g : PyStr → Option BlankEntry) (wv : PyStr × Option BlankEntry) :
    PyStr → Option BlankEntry :=
  if wv.1 ∈ WELLS ∧ wv.2.isSome then Function.update g wv.1 wv.2 else g

/-- `load` (lines 345-362): start from the all-`None` dict over `WELLS`,
fold the file's entries through the reconciliation loop, and take
`payload.get("dark", None)`. -/
def loadPayload (p : WellPayload) : (PyStr → Option BlankEntry) × Option ChannelVec :=
  (p.blanks.foldl loadStep (fun _ => none), p.dark)

theorem loadFold_not_mem {w : PyStr} (hw : w ∉ WELLS) :
    ∀ (inB : List (PyStr × Option BlankEntry)) (g : PyStr → Option BlankEntry),
      (inB.foldl loadStep g) w = g w := by
  intro inB
  induction inB with
  | nil => intro g; rfl
  | cons a t ih =>
    intro g
    rw [List.foldl_cons, ih]
    rw [loadStep]
    by_cases h : a.1 ∈ WELLS ∧ a.2.isSome
    · have hne : w ≠ a.1 := fun he => hw (he ▸ h.1)
      rw [if_pos h, Function.update_noteq hne]
    · rw [if_neg h]

theorem loadFold_no_entry {w : PyStr} :
    ∀ (inB : List (PyStr × Option BlankEntry)) (g : PyStr → Option BlankEntry),
      (∀ v, (w, v) ∉ inB) → (inB.foldl loadStep g) w = g w := by
  intro inB
  induction inB with
  | nil => intro g _; rfl
  | cons a t ih =>
    intro g hno
    have hne : w ≠ a.1 := by
      intro he
      exact hno a.2 (by rw [he]; exact List.mem_cons_self a t)
    rw [List.foldl_cons, ih _ (fun v hv => hno v (List.mem_cons_of_mem a hv))]
    rw [loadStep]
    by_cases h : a.1 ∈ WELLS ∧ a.2.isSome
    · rw [if_pos h, Function.update_noteq hne]
    · rw [if_neg h]

theorem loadFold_roundtrip (f : PyStr → Option BlankEntry) :
    ∀ (L : List PyStr), L.Nodup →
      ∀ (g : PyStr → Option BlankEntry) (w : PyStr),
        ((L.map fun u => (u, f u)).foldl loadStep g) w
          = if w ∈ L ∧ w ∈ WELLS ∧ (f w).isSome then f w else g w := by
  intro L
  induction L with
  | nil =>
    intro _ g w
    simp
  | cons a L ih =>
    intro hnd g w
    have hand : a ∉ L := (List.nodup_cons.mp hnd).1
    rw [List.map_cons, List.foldl_cons, ih (List.nodup_cons.mp hnd).2]
    by_cases hwa : w = a
    · subst hwa
      rw [if_neg (fun hc => hand hc.1)]
      rw [loadStep]
      by_cases h : w ∈ WELLS ∧ (f w).isSome
      · rw [if_pos ⟨h.1, h.2⟩, if_pos ⟨List.mem_cons_self w L, h⟩, Function.update_same]
      · have : ¬((w, f w).1 ∈ WELLS ∧ (w, f w).2.isSome) := h
        rw [if_neg this, if_neg (fun hc => h hc.2)]
    · have hmem : w ∈ a :: L ↔ w ∈ L := by
        constructor
        · intro h
          exact (List.mem_cons.mp h).resolve_left hwa
        · exact List.mem_cons_of_mem a
      by_cases hw : w ∈ L ∧ w ∈ WELLS ∧ (f w).isSome
      · rw [if_pos hw, if_pos ⟨hmem.mpr hw.1, hw.2⟩]
      · rw [if_neg hw, if_neg (fun hc => hw ⟨hmem.mp hc.1, hc.2⟩)]
        rw [loadStep]
        by_cases h : (a, f a).1 ∈ WELLS ∧ (a, f a).2.isSome
        · rw [if_pos h, Function.update_noteq hwa]
        · rw [if_neg h]

/-- Claim C8: saving the blanks dict (keyed by the well grid `WELLS`) and
the dark vector and reloading against the same grid reproduces the
identical blanks mapping and dark vector; wells present in the file but
not in the current grid are dropped (they map to nothing after load);
wells of the grid absent from the file are left unset (`None`), never
defaulted to a zero vector. -/
theorem claim8_save_load_roundtrip :
    (∀ (f : PyStr → Option BlankEntry) (dark : Option ChannelVec),
      (∀ w ∈ WELLS,
        (loadPayload (savePayload (WELLS.map fun u => (u, f u)) dark)).1 w = f w)
      ∧ (loadPayload (savePayload (WELLS.map fun u => (u, f u)) dark)).2 = dark)
    ∧ (∀ (p : WellPayload) (w : PyStr), w ∉ WELLS → (loadPayload p).1 w = none)
    ∧ (∀ (inB : List (PyStr × Option BlankEntry)) (dark : Option ChannelVec) (w : PyStr),
        (∀ v, (w, v) ∉ inB) → (loadPayload ⟨inB, dark⟩).1 w = none) := by
  refine ⟨?_, ?_, ?_⟩
  · intro f dark
    constructor
    · intro w hw
      show (List.foldl loadStep (fun _ => none) (WELLS.map fun u => (u, f u))) w = f w
      rw [loadFold_roundtrip f WELLS (by decide) (fun _ => none) w]
      by_cases h : (f w).isSome
      · rw [if_pos ⟨hw, hw, h⟩]
      · rw [if_neg (fun hc => h hc.2.2)]
        cases hfw : f w with
        | none => rfl
        | some v => rw [hfw] at h; simp at h
    · rfl
  · intro p w hw
    exact loadFold_not_mem hw p.blanks (fun _ => none)
  · intro inB dark w hno
    exact loadFold_no_entry inB (fun _ => none) hno

/-- Claim C8, witness: a file entry for a well `"X"` outside the grid is
dropped on load. -/
theorem claim8_save_load_roundtrip_witness :
    ([88] : PyStr) ∉ WELLS
    ∧ (loadPayload ⟨[([88], none)], none⟩).1 [88] = none :=
  ⟨by decide,
   claim8_save_load_roundtrip.2.1 ⟨[([88], none)], none⟩ [88] (by decide)⟩
